import Mathlib

/-
Verification of `@stdlib/array-base-count-if` (src/lib/main.js).

The package exports `countIf( x, predicate, thisArg )`, which counts the
elements of an array-like collection passing a test implemented by a
predicate function.  Two internal strategies exist: `indexed` reads
elements by direct positional access `x[ i ]`, while `accessors` first
resolves a getter and reads elements via `get( x, i )`.  `countIf`
dispatches on `isAccessorArray( x )`.

Embedding choices:
  * a plain (indexed) array is a `List α`; the read `x[ i ]` for
    `i < x.length` is `x.getD i default`;
  * an accessor array is a length together with the resolved getter
    (`resolveGetter` is resolved once, before the loop);
  * the predicate may close over mutable state through `thisArg`
    (`predicate.call( thisArg, v, i, x )`), so predicates are modelled in
    state-passing style: `σ → α → Nat → coll → σ × Bool`, where `σ` is the
    state reachable through the evaluation context and the `Bool` is the
    truthiness of the returned value;
  * the `for ( i = 0; i < x.length; i++ )` loop is a left fold of the loop
    body over `List.range x.length`, threading the pair
    (context state, running count `n`).
-/

namespace StdlibCountIf

/-- Body of the counting loop shared by both strategies: given the
predicate applied to the current context state and loop index
(`g s i = predicate.call( s, x[ i ], i, x )`), perform one iteration:
update the context state and increment the running count `n` when the
predicate returned a truthy value. -/
def step {σ : Type} (g : σ → Nat → σ × Bool) (acc : σ × Nat) (i : Nat) : σ × Nat :=
  ((g acc.1 i).1, if (g acc.1 i).2 then acc.2 + 1 else acc.2)

/-- Embedding of the private function `indexed( x, predicate, thisArg )`:
`n = 0; for ( i = 0; i < x.length; i++ ) { if ( predicate.call( thisArg,
x[ i ], i, x ) ) { n += 1; } } return n;` — returning both the final
context state and `n`. -/
def indexed {α σ : Type} [Inhabited α] (x : List α)
    (predicate : σ → α → Nat → List α → σ × Bool) (thisArg : σ) : σ × Nat :=
  (List.range x.length).foldl
    (step (fun s i => predicate s (x.getD i default) i x)) (thisArg, 0)

/-- An accessor array: a collection whose elements are read through a
resolved getter rather than by direct indexing.  `length` models
`x.length` and `get` models the getter returned by `resolveGetter( x )`
applied to `x`. -/
structure AccessorArray (α : Type) where
  length : Nat
  get : Nat → α

/-- Embedding of the private function `accessors( x, predicate, thisArg )`:
`get = resolveGetter( x ); n = 0; for ( i = 0; i < x.length; i++ ) { if (
predicate.call( thisArg, get( x, i ), i, x ) ) { n += 1; } } return n;`. -/
def accessors {α σ : Type} (x : AccessorArray α)
    (predicate : σ → α → Nat → AccessorArray α → σ × Bool) (thisArg : σ) : σ × Nat :=
  (List.range x.length).foldl
    (step (fun s i => predicate s (x.get i) i x)) (thisArg, 0)

/-- An input collection: either a plain indexed array or an accessor
array.  This is the tagged-variant view of the representation dispatch. -/
inductive Collection (α : Type) where
  | plain : List α → Collection α
  | accessor : AccessorArray α → Collection α

/-- Embedding of `isAccessorArray( x )`: whether the collection requires a
resolved getter to read elements. -/
def isAccessorArray {α : Type} : Collection α → Bool
  | .plain _ => false
  | .accessor _ => true

/-- Length of a collection (`x.length`). -/
def Collection.length {α : Type} : Collection α → Nat
  | .plain l => l.length
  | .accessor a => a.length

/-- Embedding of the exported `countIf( x, predicate, thisArg )`:
`if ( isAccessorArray( x ) ) { return accessors( x, predicate, thisArg ); }
return indexed( x, predicate, thisArg );`.  The predicate receives the
dispatched collection itself as its third argument. -/
def countIf {α σ : Type} [Inhabited α] (x : Collection α)
    (predicate : σ → α → Nat → Collection α → σ × Bool) (thisArg : σ) : σ × Nat :=
  match x with
  | .accessor a => accessors a (fun s v i _ => predicate s v i (.accessor a)) thisArg
  | .plain l => indexed l (fun s v i _ => predicate s v i (.plain l)) thisArg

/-- State-passing embedding of the counting loop in which the input
collection itself is part of the mutable store, so that the frame property
("the operation never writes to `x`") can be stated.  The store `st : τ`
holds the live collection together with the context state; the predicate
may in principle rewrite the whole store; the loop guard re-reads the live
length `len st` and the loop body re-reads the live element `read st i` on
every iteration, exactly as the JS loop reads the live object.  `fuel`
bounds the number of iterations (a predicate that keeps growing the
collection would make the JS loop run forever); `none` reports fuel
exhaustion with the loop guard still true. -/
def loopMut {τ α : Type} (len : τ → Nat) (read : τ → Nat → α)
    (predicate : τ → α → Nat → τ × Bool) :
    Nat → Nat → τ → Nat → Option (τ × Nat)
  | 0, i, st, n => if i < len st then none else some (st, n)
  | fuel + 1, i, st, n =>
    if i < len st then
      loopMut len read predicate fuel (i + 1)
        (predicate st (read st i) i).1
        (if (predicate st (read st i) i).2 then n + 1 else n)
    else some (st, n)

/-- Direct positional read `x[ i ]` on a live collection, as performed by
the `indexed` strategy: on a plain array the element at position `i`; on an
accessor array plain indexing does not reach the elements (`undefined` in
JS), modelled as `default`.  (`countIf` only routes plain arrays to the
`indexed` strategy, so the second branch is unreachable from the dispatch
unless a predicate replaces the stored collection's representation — which
no JS predicate can do by mutating `x`.) -/
def plainRead {α : Type} [Inhabited α] : Collection α → Nat → α
  | .plain l, i => l.getD i default
  | .accessor _, _ => default

/-- Element read through the getter resolved by `resolveGetter( x )`, as
performed by the `accessors` strategy, applied to the live collection: the
resolved getter on an accessor array, positional access on a plain array
(`resolveGetter` returns the positional getter there). -/
def accessorRead {α : Type} [Inhabited α] : Collection α → Nat → α
  | .plain l, i => l.getD i default
  | .accessor a, i => a.get i

/-- Mutable-store embedding of the exported `countIf`: dispatch once on
`isAccessorArray( x )`, then run the selected strategy's loop over the
store (live collection, context state), reading elements the way that
strategy does.  The fuel is the entry-time length, which is exactly the
number of iterations whenever the predicate leaves the collection
unchanged. -/
def countIfMut {α σ : Type} [Inhabited α] (x : Collection α)
    (predicate : Collection α × σ → α → Nat → (Collection α × σ) × Bool)
    (thisArg : σ) : Option ((Collection α × σ) × Nat) :=
  if isAccessorArray x then
    loopMut (fun st => Collection.length st.1) (fun st i => accessorRead st.1 i)
      predicate (Collection.length x) 0 (x, thisArg) 0
  else
    loopMut (fun st => Collection.length st.1) (fun st i => plainRead st.1 i)
      predicate (Collection.length x) 0 (x, thisArg) 0

/-- The complex-valued example collection of the spec: an accessor array
holding the complex numbers (0,0), (1,0), (3,4), (0,5) as
(real part, imaginary part) pairs. -/
def complexExample : AccessorArray (Int × Int) :=
  ⟨4, fun i => [((0 : Int), (0 : Int)), (1, 0), (3, 4), (0, 5)].getD i (0, 0)⟩

/- Generic lemmas about folding `step g` over `List.range n`. -/

theorem foldl_step_snd_le {σ : Type} (g : σ → Nat → σ × Bool) (n : Nat)
    (init : σ × Nat) :
    ((List.range n).foldl (step g) init).2 ≤ init.2 + n := by
  induction n generalizing init with
  | zero => simp
  | succ n ih =>
    rw [List.range_succ, List.foldl_append]
    have h := ih init
    set acc := (List.range n).foldl (step g) init
    simp only [List.foldl_cons, List.foldl_nil, step]
    split <;> omega

theorem foldl_step_pure {σ : Type} (g : σ → Nat → σ × Bool) (f : Nat → Bool)
    (t : σ) (hg : ∀ i, g t i = (t, f i)) (n : Nat) (c : Nat) :
    (List.range n).foldl (step g) (t, c) = (t, c + ((List.range n).filter f).length) := by
  induction n generalizing c with
  | zero => simp
  | succ n ih =>
    rw [List.range_succ, List.foldl_append, List.filter_append, ih]
    simp only [List.foldl_cons, List.foldl_nil, List.length_append, step]
    rw [hg n]
    rcases hb : f n with _ | _
    · simp [List.filter, hb]
    · simp [List.filter, hb]
      omega

theorem foldl_step_all_true {σ : Type} (g : σ → Nat → σ × Bool)
    (h : ∀ s i, (g s i).2 = true) (n : Nat) (init : σ × Nat) :
    ((List.range n).foldl (step g) init).2 = init.2 + n := by
  induction n generalizing init with
  | zero => simp
  | succ n ih =>
    rw [List.range_succ, List.foldl_append]
    have h2 := ih init
    set acc := (List.range n).foldl (step g) init
    simp only [List.foldl_cons, List.foldl_nil, step, h, eq_self_iff_true, if_true]
    omega

theorem foldl_step_all_false {σ : Type} (g : σ → Nat → σ × Bool)
    (h : ∀ s i, (g s i).2 = false) (n : Nat) (init : σ × Nat) :
    ((List.range n).foldl (step g) init).2 = init.2 := by
  induction n generalizing init with
  | zero => simp
  | succ n ih =>
    rw [List.range_succ, List.foldl_append]
    have h2 := ih init
    set acc := (List.range n).foldl (step g) init
    simp only [List.foldl_cons, List.foldl_nil, step, h, Bool.false_eq_true, if_false]
    omega

theorem foldl_step_state_succ (g : Nat → Nat → Nat × Bool)
    (h : ∀ s i, (g s i).1 = s + 1) (n : Nat) (init : Nat × Nat) :
    ((List.range n).foldl (step g) init).1 = init.1 + n := by
  induction n generalizing init with
  | zero => simp
  | succ n ih =>
    rw [List.range_succ, List.foldl_append]
    have h2 := ih init
    set acc := (List.range n).foldl (step g) init
    simp only [List.foldl_cons, List.foldl_nil, step, h]
    omega

theorem foldl_step_congr {σ : Type} (g1 g2 : σ → Nat → σ × Bool) (n : Nat)
    (h : ∀ s i, i < n → g1 s i = g2 s i) (init : σ × Nat) :
    (List.range n).foldl (step g1) init = (List.range n).foldl (step g2) init := by
  induction n generalizing init with
  | zero => simp
  | succ n ih =>
    rw [List.range_succ, List.foldl_append, List.foldl_append,
      ih (fun s i hi => h s i (Nat.lt_succ_of_lt hi)) init]
    set acc := (List.range n).foldl (step g2) init
    simp only [List.foldl_cons, List.foldl_nil, step]
    rw [h acc.1 n (Nat.lt_succ_self n)]

theorem loopMut_frame {γ σ α : Type} (clen : γ → Nat) (read : γ × σ → Nat → α)
    (predicate : γ × σ → α → Nat → (γ × σ) × Bool)
    (hp : ∀ st v i, ((predicate st v i).1).1 = st.1) (x : γ) :
    ∀ fuel i s n, clen x - i ≤ fuel →
      ∃ s2 n2, loopMut (fun st => clen st.1) read predicate fuel i (x, s) n
        = some ((x, s2), n2) := by
  intro fuel
  induction fuel with
  | zero =>
    intro i s n hle
    refine ⟨s, n, ?_⟩
    simp only [loopMut]
    rw [if_neg]
    omega
  | succ fuel ih =>
    intro i s n hle
    by_cases h : i < clen x
    · have hr : (predicate (x, s) (read (x, s) i) i).1
          = (x, ((predicate (x, s) (read (x, s) i) i).1).2) :=
        Prod.ext (hp (x, s) (read (x, s) i) i) rfl
      simp only [loopMut]
      rw [if_pos h, hr]
      exact ih (i + 1) _ _ (by omega)
    · exact ⟨s, n, by simp only [loopMut]; rw [if_neg h]⟩

/- Theorems settling the claims. -/

/-- C1: for every collection `x`, predicate and context `thisArg`,
`countIf` returns the number of indices `i` in `[0, x.length)` for which
the predicate, invoked with `(x[ i ], i, x)` and bound to `thisArg`,
returns a truthy value, and the context state is returned unchanged when
the predicate leaves it unchanged. -/
theorem countIf_counts_truthy_indices {α σ : Type} [Inhabited α] (x : List α)
    (p : σ → α → Nat → Collection α → Bool) (t : σ) :
    countIf (Collection.plain x) (fun s v i c => (s, p s v i c)) t
      = (t, ((List.range x.length).filter
          (fun i => p t (x.getD i default) i (Collection.plain x))).length) := by
  have h := foldl_step_pure
    (fun s i => (s, p s (x.getD i default) i (Collection.plain x)))
    (fun i => p t (x.getD i default) i (Collection.plain x))
    t (fun i => rfl) x.length 0
  simpa [countIf, indexed] using h

/-- C2: on element-equivalent inputs — a plain indexed array and an
accessor array with the same length whose getter yields the same elements
in the same order — the direct-index strategy and the accessor strategy
return equal counts for the same predicate behaviour and context. -/
theorem indexed_accessors_agree {α σ : Type} [Inhabited α]
    (l : List α) (a : AccessorArray α)
    (p : σ → α → Nat → σ × Bool) (t : σ)
    (hlen : a.length = l.length)
    (hget : ∀ i, i < l.length → a.get i = l.getD i default) :
    (indexed l (fun s v i _ => p s v i) t).2
      = (accessors a (fun s v i _ => p s v i) t).2 := by
  simp only [indexed, accessors]
  rw [hlen]
  rw [foldl_step_congr (fun s i => p s (l.getD i default) i)
    (fun s i => p s (a.get i) i) l.length
    (fun s i hi => by simp only [hget i hi]) (t, 0)]

/-- C3: on any collection of length 0, `countIf` returns 0, for every
predicate and context. -/
theorem countIf_empty {α σ : Type} [Inhabited α] (x : Collection α)
    (predicate : σ → α → Nat → Collection α → σ × Bool) (t : σ)
    (h : Collection.length x = 0) :
    (countIf x predicate t).2 = 0 := by
  cases x with
  | plain l =>
    simp only [Collection.length] at h
    simp [countIf, indexed, h]
  | accessor a =>
    simp only [Collection.length] at h
    simp [countIf, accessors, h]

/-- C4: if the predicate returns a truthy value on every invocation, the
count equals the collection length. -/
theorem countIf_all_true {α σ : Type} [Inhabited α] (x : Collection α)
    (predicate : σ → α → Nat → Collection α → σ × Bool) (t : σ)
    (h : ∀ s v i c, (predicate s v i c).2 = true) :
    (countIf x predicate t).2 = Collection.length x := by
  cases x with
  | plain l =>
    have hle := foldl_step_all_true
      (fun s i => predicate s (l.getD i default) i (Collection.plain l))
      (fun s i => h s _ i _) l.length (t, 0)
    simpa [countIf, indexed, Collection.length] using hle
  | accessor a =>
    have hle := foldl_step_all_true
      (fun s i => predicate s (a.get i) i (Collection.accessor a))
      (fun s i => h s _ i _) a.length (t, 0)
    simpa [countIf, accessors, Collection.length] using hle

/-- C5: if the predicate returns a falsy value on every invocation, the
count is 0. -/
theorem countIf_all_false {α σ : Type} [Inhabited α] (x : Collection α)
    (predicate : σ → α → Nat → Collection α → σ × Bool) (t : σ)
    (h : ∀ s v i c, (predicate s v i c).2 = false) :
    (countIf x predicate t).2 = 0 := by
  cases x with
  | plain l =>
    have hle := foldl_step_all_false
      (fun s i => predicate s (l.getD i default) i (Collection.plain l))
      (fun s i => h s _ i _) l.length (t, 0)
    simpa [countIf, indexed] using hle
  | accessor a =>
    have hle := foldl_step_all_false
      (fun s i => predicate s (a.get i) i (Collection.accessor a))
      (fun s i => h s _ i _) a.length (t, 0)
    simpa [countIf, accessors] using hle

/-- C6: the predicate is invoked exactly once per element: a predicate that
increments a counter held in the context on every invocation leaves the
counter equal to the initial value plus the collection length. -/
theorem countIf_calls_once_per_element {α : Type} [Inhabited α] (x : Collection α)
    (predicate : Nat → α → Nat → Collection α → Nat × Bool) (t : Nat)
    (h : ∀ s v i c, (predicate s v i c).1 = s + 1) :
    (countIf x predicate t).1 = t + Collection.length x := by
  cases x with
  | plain l =>
    have hle := foldl_step_state_succ
      (fun s i => predicate s (l.getD i default) i (Collection.plain l))
      (fun s i => h s _ i _) l.length (t, 0)
    simpa [countIf, indexed, Collection.length] using hle
  | accessor a =>
    have hle := foldl_step_state_succ
      (fun s i => predicate s (a.get i) i (Collection.accessor a))
      (fun s i => h s _ i _) a.length (t, 0)
    simpa [countIf, accessors, Collection.length] using hle

/-- C7: on the complex-valued accessor collection (0,0), (1,0), (3,4),
(0,5), with a predicate requiring both the real and the imaginary part to
be strictly positive, `countIf` returns 1. -/
theorem countIf_complex_example :
    (countIf (Collection.accessor complexExample)
      (fun (s : Unit) v _ _ => (s, decide (0 < v.1 ∧ 0 < v.2))) ()).2 = 1 := by
  decide

/-- C8: `countIf` is a pure, deterministic computation: the result is a
function of the collection, the extensional behaviour of the predicate and
the context alone, so any two runs on the same inputs return the same
count. -/
theorem countIf_deterministic {α σ : Type} [Inhabited α] (x : Collection α)
    (p q : σ → α → Nat → Collection α → σ × Bool) (t : σ)
    (h : ∀ s v i c, p s v i c = q s v i c) :
    countIf x p t = countIf x q t := by
  cases x with
  | plain l =>
    simp only [countIf, indexed]
    exact foldl_step_congr _ _ l.length (fun s i _ => h s _ i _) (t, 0)
  | accessor a =>
    simp only [countIf, accessors]
    exact foldl_step_congr _ _ a.length (fun s i _ => h s _ i _) (t, 0)

/-- C9: `countIf` never modifies the input collection: for every collection
`x` (plain or accessor), every predicate that does not itself mutate `x`,
and every context, running the mutable-store embedding of `countIf` (the
`isAccessorArray` dispatch followed by the selected strategy's loop over
the live store) leaves the collection — its elements and its length —
unchanged, and the loop terminates within `x.length` iterations. -/
theorem countIf_preserves_input {α σ : Type} [Inhabited α]
    (x : Collection α) (s : σ)
    (predicate : Collection α × σ → α → Nat → (Collection α × σ) × Bool)
    (hp : ∀ st v i, ((predicate st v i).1).1 = st.1) :
    ∃ s2 n, countIfMut x predicate s = some ((x, s2), n) := by
  unfold countIfMut
  split
  · exact loopMut_frame Collection.length _ predicate hp x
      (Collection.length x) 0 s 0 (by omega)
  · exact loopMut_frame Collection.length _ predicate hp x
      (Collection.length x) 0 s 0 (by omega)

/-- C10: the result of `countIf` is a non-negative count bounded above by
the collection length. -/
theorem countIf_le_length {α σ : Type} [Inhabited α] (x : Collection α)
    (predicate : σ → α → Nat → Collection α → σ × Bool) (t : σ) :
    0 ≤ (countIf x predicate t).2 ∧ (countIf x predicate t).2 ≤ Collection.length x := by
  refine ⟨Nat.zero_le _, ?_⟩
  cases x with
  | plain l =>
    have hle := foldl_step_snd_le
      (fun s i => predicate s (l.getD i default) i (Collection.plain l)) l.length (t, 0)
    simpa [countIf, indexed, Collection.length] using hle
  | accessor a =>
    have hle := foldl_step_snd_le
      (fun s i => predicate s (a.get i) i (Collection.accessor a)) a.length (t, 0)
    simpa [countIf, accessors, Collection.length] using hle

/- Witnesses: concrete instantiations discharging each hypothesis. -/

theorem indexed_accessors_agree_witness :
    (indexed [0, 1, 2] (fun (s : Unit) v _ _ => (s, decide (0 < v))) ()).2
      = (accessors ⟨3, fun i => i⟩
          (fun (s : Unit) v _ _ => (s, decide (0 < v))) ()).2 :=
  indexed_accessors_agree [0, 1, 2] ⟨3, fun i => i⟩
    (fun s v _ => (s, decide (0 < v))) () rfl (by decide)

theorem countIf_empty_witness :
    (countIf (Collection.plain ([] : List Nat))
      (fun (s : Unit) _ _ _ => (s, true)) ()).2 = 0 :=
  countIf_empty (Collection.plain ([] : List Nat))
    (fun s _ _ _ => (s, true)) () rfl

theorem countIf_all_true_witness :
    (countIf (Collection.plain [5, 7]) (fun (s : Unit) _ _ _ => (s, true)) ()).2
      = Collection.length (Collection.plain [5, 7]) :=
  countIf_all_true (Collection.plain [5, 7])
    (fun s _ _ _ => (s, true)) () (fun _ _ _ _ => rfl)

theorem countIf_all_false_witness :
    (countIf (Collection.plain [5, 7]) (fun (s : Unit) _ _ _ => (s, false)) ()).2
      = 0 :=
  countIf_all_false (Collection.plain [5, 7])
    (fun s _ _ _ => (s, false)) () (fun _ _ _ _ => rfl)

theorem countIf_calls_once_per_element_witness :
    (countIf (Collection.plain [10, 20, 30])
      (fun (s : Nat) _ _ _ => (s + 1, true)) 0).1
      = 0 + Collection.length (Collection.plain [10, 20, 30]) :=
  countIf_calls_once_per_element (Collection.plain [10, 20, 30])
    (fun s _ _ _ => (s + 1, true)) 0 (fun _ _ _ _ => rfl)

theorem countIf_deterministic_witness :
    countIf (Collection.plain [0, 1, 2])
        (fun (s : Unit) v _ _ => (s, decide (0 < v))) ()
      = countIf (Collection.plain [0, 1, 2])
        (fun (s : Unit) v _ _ => (s, decide (1 ≤ v))) () :=
  countIf_deterministic (Collection.plain [0, 1, 2])
    (fun s v _ _ => (s, decide (0 < v)))
    (fun s v _ _ => (s, decide (1 ≤ v))) () (fun _ _ _ _ => rfl)

theorem countIf_preserves_input_witness :
    (∃ s2 n, countIfMut (Collection.plain [3, 0])
        (fun (st : Collection Nat × Nat) v _ => ((st.1, st.2 + 1), decide (0 < v))) 5
      = some ((Collection.plain [3, 0], s2), n))
    ∧ (∃ s2 n, countIfMut (Collection.accessor ⟨2, fun i => i⟩)
        (fun (st : Collection Nat × Nat) v _ => ((st.1, st.2 + 1), decide (0 < v))) 5
      = some ((Collection.accessor ⟨2, fun i => i⟩, s2), n)) :=
  ⟨countIf_preserves_input (Collection.plain [3, 0]) 5
      (fun st v _ => ((st.1, st.2 + 1), decide (0 < v))) (fun _ _ _ => rfl),
    countIf_preserves_input (Collection.accessor ⟨2, fun i => i⟩) 5
      (fun st v _ => ((st.1, st.2 + 1), decide (0 < v))) (fun _ _ _ => rfl)⟩

end StdlibCountIf
